import Mathlib

/-!
Verification of the Indian Stock Market News Analyzer (`src/main.py`).

The program fetches news articles for a stock through a five-query ladder,
dedups them by url with a cap of 20 (`StockNewsAnalyzer.fetch_news`), scores
each article's sentiment with an external scorer (TextBlob, modelled as a
black-box function `String → ℚ`), and renders a summary
(`StockNewsAnalyzer.generate_summary`): sentiment counts and percentages,
topic keyword tallies, highlights, a price context, and a closing statement.

We embed the article aggregation loop, the summary computation, and the
per-article display classification as executable Lean functions, and prove
the specification's claims about them.
-/

namespace StockNews

/-- A news article as consumed by the program: a JSON object from which the
code reads `title`, `description`, `url`, `publishedAt` via `.get(key, '')`.
A missing field is `none`; `get` with default is `Option.getD`. -/
structure Article where
  title : Option String
  description : Option String
  url : Option String
  publishedAt : Option String
deriving DecidableEq, Repr

/-- The access `article.get('title', '')`. -/
def getTitle (a : Article) : String := a.title.getD ""

/-- The access `article.get('description', '')`. -/
def getDescription (a : Article) : String := a.description.getD ""

/-- The access `article.get('url', '')`. -/
def getUrl (a : Article) : String := a.url.getD ""

/-- Outcome of one query of the ladder in `fetch_news` (lines 97-114):
either the request raised (caught by `except ... continue`), or a response
JSON with a `status` field (possibly absent) and an `articles` list
(`news_data.get('articles', [])`, defaulted to `[]` when absent, which we
fold into the list itself). -/
inductive FetchOutcome where
  | err : FetchOutcome
  | resp (status : Option String) (articles : List Article) : FetchOutcome
deriving DecidableEq, Repr

/-- The articles a query contributes: its `articles` list when the response
status is `"ok"` (line 101-102), nothing on error or other status. -/
def okArticles : FetchOutcome → List Article
  | .err => []
  | .resp status articles => if status = some "ok" then articles else []

/-- The inner article loop of `fetch_news` (lines 104-111): for each article,
admit it iff its url is truthy (non-empty) and unseen; record the url in
`seen_urls`, append the article, and break once 20 articles are held. -/
def addBatch (acc : List Article) (seen : List String) :
    List Article → List Article × List String
  | [] => (acc, seen)
  | a :: rest =>
    if getUrl a ≠ "" ∧ getUrl a ∉ seen then
      if 20 ≤ (acc ++ [a]).length then (acc ++ [a], getUrl a :: seen)
      else addBatch (acc ++ [a]) (getUrl a :: seen) rest
    else addBatch acc seen rest

/-- The query loop of `fetch_news` (lines 83-114): break when 20 articles
are held, otherwise process the next query's outcome. -/
def fetchLoop (acc : List Article) (seen : List String) :
    List FetchOutcome → List Article
  | [] => acc
  | b :: rest =>
    if 20 ≤ acc.length then acc
    else
      fetchLoop (addBatch acc seen (okArticles b)).1
        (addBatch acc seen (okArticles b)).2 rest

/-- The tail of `fetch_news` (lines 116-126): the stored `news_articles` list and
the returned boolean. With ≥ 20 articles store the first 20 and succeed;
with 1-19 store them all and succeed; with none, fail (the `news_articles`
field keeps its initial `[]`). -/
def fetchNews (batches : List FetchOutcome) : List Article × Bool :=
  let allArticles := fetchLoop [] [] batches
  if 20 ≤ allArticles.length then (allArticles.take 20, true)
  else if 0 < allArticles.length then (allArticles, true)
  else ([], false)

/-- Reference dedup: first occurrence of each non-empty url wins; articles
with an empty (or missing) url are discarded. `seen` is the set of urls
already taken. -/
def dedupFirst (seen : List String) : List Article → List Article
  | [] => []
  | a :: rest =>
    if getUrl a ≠ "" ∧ getUrl a ∉ seen then a :: dedupFirst (getUrl a :: seen) rest
    else dedupFirst seen rest

/-- The seen-url set after running `dedupFirst`. -/
def dedupSeen (seen : List String) : List Article → List String
  | [] => seen
  | a :: rest =>
    if getUrl a ≠ "" ∧ getUrl a ∉ seen then dedupSeen (getUrl a :: seen) rest
    else dedupSeen seen rest

/-- Dedup exactly as claim C1 words it: an article is admitted iff its url
has not been seen (no filtering of empty urls). -/
def dedupFirstClaim (seen : List String) : List Article → List Article
  | [] => []
  | a :: rest =>
    if getUrl a ∉ seen then a :: dedupFirstClaim (getUrl a :: seen) rest
    else dedupFirstClaim seen rest

/-- The aggregate C1 claims the code computes: concatenate the batches,
keep the first occurrence of each url, truncate at 20. -/
def specAggregateClaim (batches : List (List Article)) : List Article :=
  (dedupFirstClaim [] batches.flatten).take 20

/-- Sentiment bucket (`Positive`/`Negative`/`Neutral`). -/
inductive Bucket where
  | positive : Bucket
  | negative : Bucket
  | neutral : Bucket
deriving DecidableEq, Repr

/-- The fixed-threshold bucketing applied to a polarity score
(lines 151-156 and 329-337): `> 0.1` positive, `< -0.1` negative,
else neutral. -/
def bucketOf (s : ℚ) : Bucket :=
  if 1/10 < s then .positive
  else if s < -(1/10) then .negative
  else .neutral

/-- The text `generate_summary` scores (line 144):
`f"{title}. {description}"`. -/
def summaryText (a : Article) : String :=
  getTitle a ++ ". " ++ getDescription a

/-- The text the per-article display in `main` scores (line 326):
`f"{title} {description}"` — a plain space, no period. -/
def displayText (a : Article) : String :=
  getTitle a ++ " " ++ getDescription a

/-- The sentiment bucket `generate_summary` counts an article under
(lines 141-156). The polarity scorer `f` is the external TextBlob. -/
def classifySummary (f : String → ℚ) (a : Article) : Bucket :=
  bucketOf (f (summaryText a))

/-- The sentiment label the article expander in `main` shows for an article
(lines 326-337). -/
def classifyDisplay (f : String → ℚ) (a : Article) : Bucket :=
  bucketOf (f (displayText a))

/-- Formatting `f"{x:.1f}"`: round to one decimal place (modelled as round-to-nearest;
the properties proved below hold for either direction of tie-breaking). -/
def round1 (q : ℚ) : ℚ := (round (q * 10) : ℤ) / 10

/-- The fixed topic → keyword table of `generate_summary` (lines 187-195). -/
def keywords : List (String × List String) :=
  [("earnings", ["earnings", "profit", "revenue", "quarter", "results"]),
   ("growth", ["growth", "expansion", "increase", "rise", "surge"]),
   ("challenges", ["fall", "drop", "decline", "loss", "challenge"]),
   ("innovation", ["launch", "innovation", "technology", "digital", "AI"]),
   ("market", ["market", "stock", "share", "investor", "trading"]),
   ("regulatory", ["regulatory", "compliance", "government", "policy"]),
   ("partnership", ["partnership", "deal", "agreement", "collaboration"])]

/-- Python's `s.lower()` viewed as a character list: lowercase every character. -/
def lower (s : String) : List Char := s.toList.map Char.toLower

/-- Python's `needle in hay` on strings, both sides lowercased first
(`keyword.lower() in title.lower()`): case-insensitive substring test,
a string being a contiguous run (infix) of the other's characters. -/
def kwIn (needle hay : String) : Bool :=
  decide (lower needle <:+: lower hay)

/-- Whether an article mentions a topic: ANY of the topic's keywords occurs
(case-insensitively) in the title or the description (lines 198-201). -/
def articleMentions (kws : List String) (a : Article) : Bool :=
  kws.any fun kw => kwIn kw (getTitle a) || kwIn kw (getDescription a)

/-- A topic's tally: number of articles mentioning it
(`sum(1 for article in ... if any(...))`, lines 198-201). -/
def topicCount (kws : List String) (arts : List Article) : ℕ :=
  (arts.filter fun a => articleMentions kws a).length

/-- Overall-sentiment header wording (lines 162-171). -/
inductive Overall where
  | predominantlyPositive : Overall
  | predominantlyNegative : Overall
  | mixed : Overall
deriving DecidableEq, Repr

/-- The chain `if positive_count > negative_count ... elif negative_count >
positive_count ... else mixed` (lines 162-171). -/
def overallOf (p n : ℕ) : Overall :=
  if n < p then .predominantlyPositive
  else if p < n then .predominantlyNegative
  else .mixed

/-- Closing-statement wording (lines 224-230). -/
inductive Conclusion where
  | stronglyPositive : Conclusion
  | concerning : Conclusion
  | mixedBalanced : Conclusion
deriving DecidableEq, Repr

/-- The chain `if positive_count > negative_count * 1.5 ... elif negative_count >
positive_count * 1.5 ... else balanced` (lines 224-230). -/
def conclusionOf (p n : ℕ) : Conclusion :=
  if (n : ℚ) * (3/2) < (p : ℚ) then .stronglyPositive
  else if (p : ℚ) * (3/2) < (n : ℚ) then .concerning
  else .mixedBalanced

/-- Market-context block (lines 216-222): emitted only when the price
series has more than one point; shows the last close and the change
`((current - previous) / previous) * 100` computed from the last two
closes (`iloc[-1]`, `iloc[-2]`). -/
def priceCtx (stockData : List ℚ) : Option (ℚ × ℚ) :=
  if 1 < stockData.length then
    match stockData.reverse with
    | cur :: prev :: _ => some (cur, (cur - prev) / prev * 100)
    | _ => none
  else none

/-- The structured content of the summary string `generate_summary` builds
for a non-empty article list. -/
structure Summary where
  positiveCount : ℕ
  negativeCount : ℕ
  neutralCount : ℕ
  totalArticles : ℕ
  overallSentiment : Overall
  positivePct : ℚ
  negativePct : ℚ
  neutralPct : ℚ
  topicsMentioned : List (String × ℕ)
  highlights : List Article
  priceContext : Option (ℚ × ℚ)
  conclusion : Conclusion
deriving DecidableEq, Repr

/-- The function `generate_summary` (lines 128-232). Returns `none` for the early exit
`"No news articles available for summary."` (lines 130-131); otherwise the
structured summary: bucket counts by the fixed thresholds over
`title + ". " + description`, percentages `count / total * 100` rounded to
one decimal, topics with positive tally in table order, the first five
articles as highlights, the optional price context, and the closing
statement by the 1.5-ratio rule. -/
def generateSummary (f : String → ℚ) (stockData : List ℚ)
    (arts : List Article) : Option Summary :=
  if arts.isEmpty then none
  else
    let p := arts.countP fun a => classifySummary f a = .positive
    let n := arts.countP fun a => classifySummary f a = .negative
    let u := arts.countP fun a => classifySummary f a = .neutral
    let t := arts.length
    some
      { positiveCount := p
        negativeCount := n
        neutralCount := u
        totalArticles := t
        overallSentiment := overallOf p n
        positivePct := round1 ((p : ℚ) / (t : ℚ) * 100)
        negativePct := round1 ((n : ℚ) / (t : ℚ) * 100)
        neutralPct := round1 ((u : ℚ) / (t : ℚ) * 100)
        topicsMentioned :=
          (keywords.map fun tk => (tk.1, topicCount tk.2 arts)).filter
            fun tc => 0 < tc.2
        highlights := arts.take 5
        priceContext := priceCtx stockData
        conclusion := conclusionOf p n }

/-- A batch transformation that drops every article whose url is missing or
empty, used to state that such articles are irrelevant to the fetch. -/
def dropEmptyUrl : FetchOutcome → FetchOutcome
  | .err => .err
  | .resp status articles =>
    .resp status (articles.filter fun a => getUrl a ≠ "")

/-- Concrete article with an empty-string url. -/
def exEmptyUrl : Article := ⟨some "t", some "d", some "", none⟩

/-- Concrete article with no url field at all. -/
def exNoUrl : Article := ⟨some "t2", some "d2", none, none⟩

/-- Concrete article realizing the spec's topic-tally example. -/
def exArticle : Article :=
  ⟨some "Company reports record earnings growth", some "", some "u1", none⟩

/-- A query outcome that contributes nothing: the request raised, or the
response status was not `"ok"`. -/
def isFailure : FetchOutcome → Bool
  | .err => true
  | .resp status _ => decide (status ≠ some "ok")

/-- Proposition-level statement that keyword `kw` occurs as a
case-insensitive substring of the article's title or description. -/
def MentionsProp (kw : String) (a : Article) : Prop :=
  lower kw <:+: lower (getTitle a) ∨ lower kw <:+: lower (getDescription a)

instance instDecidableMentionsProp (kw : String) (a : Article) :
    Decidable (MentionsProp kw a) := by
  unfold MentionsProp
  infer_instance

/-- A concrete polarity scorer distinguishing the two texts built from
`exEmptyUrl` (title `"t"`, description `"d"`): positive on `"t. d"`,
zero elsewhere. -/
def exPolarity : String → ℚ := fun s => if s = "t. d" then 1 else 0

/- ### Lemmas about the aggregation loop -/

theorem fetchLoop_of_le {acc : List Article} {seen : List String}
    {bs : List FetchOutcome} (h : 20 ≤ acc.length) :
    fetchLoop acc seen bs = acc := by
  cases bs with
  | nil => rfl
  | cons b rest => simp [fetchLoop, h]

theorem dedupFirst_congr (l : List Article) : ∀ s t : List String,
    (∀ u, u ∈ s ↔ u ∈ t) → dedupFirst s l = dedupFirst t l := by
  induction l with
  | nil => intros; rfl
  | cons a rest ih =>
    intro s t h
    simp only [dedupFirst]
    by_cases h2 : getUrl a ≠ "" ∧ getUrl a ∉ s
    · rw [if_pos h2, if_pos ⟨h2.1, fun hx => h2.2 ((h _).mpr hx)⟩]
      exact congrArg (List.cons a)
        (ih (getUrl a :: s) (getUrl a :: t) (fun u => by simp [h u]))
    · rw [if_neg h2, if_neg (by rw [not_and_or] at h2 ⊢; simpa [h _] using h2)]
      exact ih s t h

theorem dedupFirst_append (l m : List Article) : ∀ seen : List String,
    dedupFirst seen (l ++ m) =
      dedupFirst seen l ++ dedupFirst (dedupSeen seen l) m := by
  induction l with
  | nil => intro seen; simp [dedupFirst, dedupSeen]
  | cons a rest ih =>
    intro seen
    simp only [List.cons_append, dedupFirst, dedupSeen, List.append_eq]
    by_cases h2 : getUrl a ≠ "" ∧ getUrl a ∉ seen
    · rw [if_pos h2, if_pos h2, if_pos h2, ih]; rfl
    · rw [if_neg h2, if_neg h2, if_neg h2, ih]

theorem mem_dedupSeen (l : List Article) : ∀ (seen : List String) (u : String),
    u ∈ dedupSeen seen l ↔ u ∈ seen ∨ u ∈ (dedupFirst seen l).map getUrl := by
  induction l with
  | nil => simp [dedupSeen, dedupFirst]
  | cons a rest ih =>
    intro seen u
    simp only [dedupSeen, dedupFirst]
    by_cases h2 : getUrl a ≠ "" ∧ getUrl a ∉ seen
    · rw [if_pos h2, if_pos h2, ih]
      simp only [List.mem_cons, List.map_cons, List.mem_map]
      tauto
    · rw [if_neg h2, if_neg h2, ih]

theorem addBatch_fst (l : List Article) : ∀ (acc : List Article)
    (seen : List String), acc.length < 20 →
    (addBatch acc seen l).1 = (acc ++ dedupFirst seen l).take 20 := by
  induction l with
  | nil =>
    intro acc seen h
    simp [addBatch, dedupFirst, List.take_of_length_le (le_of_lt h)]
  | cons a rest ih =>
    intro acc seen h
    simp only [addBatch, dedupFirst]
    by_cases h2 : getUrl a ≠ "" ∧ getUrl a ∉ seen
    · rw [if_pos h2, if_pos h2]
      by_cases h3 : 20 ≤ (acc ++ [a]).length
      · rw [if_pos h3]
        have hr : acc ++ a :: dedupFirst (getUrl a :: seen) rest =
            (acc ++ [a]) ++ dedupFirst (getUrl a :: seen) rest := by simp
        rw [hr, List.take_append_of_le_length h3,
          List.take_of_length_le (by simp at h3 ⊢; omega)]
      · rw [if_neg h3, ih _ _ (by simp at h3 ⊢; omega)]
        congr 1
        simp
    · rw [if_neg h2, if_neg h2]
      exact ih acc seen h

theorem addBatch_snd_mem (l : List Article) : ∀ (acc : List Article)
    (seen : List String), (∀ u, u ∈ seen ↔ u ∈ acc.map getUrl) →
    ∀ u, u ∈ (addBatch acc seen l).2 ↔
      u ∈ ((addBatch acc seen l).1).map getUrl := by
  induction l with
  | nil =>
    intro acc seen h u
    simpa [addBatch] using h u
  | cons a rest ih =>
    intro acc seen h u
    simp only [addBatch]
    by_cases h2 : getUrl a ≠ "" ∧ getUrl a ∉ seen
    · rw [if_pos h2]
      by_cases h3 : 20 ≤ (acc ++ [a]).length
      · rw [if_pos h3]
        simp only [List.mem_cons, List.map_append, List.mem_append, h u]
        simp [or_comm]
      · rw [if_neg h3]
        exact ih _ _ (fun v => by simp [List.mem_cons, h v, or_comm]) u
    · rw [if_neg h2]
      exact ih _ _ h u

theorem addBatch_fst_length_le (l : List Article) (acc : List Article)
    (seen : List String) (h : acc.length < 20) :
    (addBatch acc seen l).1.length ≤ 20 := by
  rw [addBatch_fst l acc seen h, List.length_take]
  exact min_le_left _ _

theorem fetchLoop_spec (bs : List FetchOutcome) : ∀ (acc : List Article)
    (seen : List String), acc.length ≤ 20 →
    (∀ u, u ∈ seen ↔ u ∈ acc.map getUrl) →
    fetchLoop acc seen bs =
      (acc ++ dedupFirst seen ((bs.map okArticles).flatten)).take 20 := by
  induction bs with
  | nil =>
    intro acc seen hlen _
    simp [fetchLoop, dedupFirst, List.take_of_length_le hlen]
  | cons b rest ih =>
    intro acc seen hlen hseen
    simp only [fetchLoop, List.map_cons, List.flatten_cons]
    by_cases hfull : 20 ≤ acc.length
    · rw [if_pos hfull, List.take_append_of_le_length hfull,
        List.take_of_length_le hlen]
    · rw [if_neg hfull]
      have hlt : acc.length < 20 := lt_of_not_ge hfull
      have hfst := addBatch_fst (okArticles b) acc seen hlt
      have hsnd := addBatch_snd_mem (okArticles b) acc seen hseen
      rw [ih _ _ (addBatch_fst_length_le _ _ _ hlt) hsnd]
      rw [dedupFirst_append]
      set D := dedupFirst seen (okArticles b) with hD
      by_cases hlong : (acc ++ D).length ≤ 20
      · have hacc2 : (addBatch acc seen (okArticles b)).1 = acc ++ D := by
          rw [hfst, List.take_of_length_le hlong]
        rw [hacc2]
        have hcong : dedupFirst (addBatch acc seen (okArticles b)).2
            ((rest.map okArticles).flatten) =
            dedupFirst (dedupSeen seen (okArticles b))
              ((rest.map okArticles).flatten) := by
          apply dedupFirst_congr
          intro u
          rw [hsnd u, hacc2, mem_dedupSeen]
          simp [hseen u, or_comm]
        rw [hcong, List.append_assoc]
      · have hlong2 : 20 ≤ (acc ++ D).length := le_of_not_ge hlong
        have hacc2len : 20 ≤ (addBatch acc seen (okArticles b)).1.length := by
          rw [hfst, List.length_take]
          omega
        rw [List.take_append_of_le_length hacc2len, hfst,
          List.take_take, min_self, ← List.append_assoc,
          List.take_append_of_le_length hlong2]

theorem dedupFirst_nodup (l : List Article) : ∀ seen : List String,
    ((dedupFirst seen l).map getUrl).Nodup ∧
      ∀ v ∈ (dedupFirst seen l).map getUrl, v ∉ seen := by
  induction l with
  | nil => simp [dedupFirst]
  | cons a rest ih =>
    intro seen
    simp only [dedupFirst]
    by_cases h2 : getUrl a ≠ "" ∧ getUrl a ∉ seen
    · rw [if_pos h2]
      obtain ⟨hnd, hnm⟩ := ih (getUrl a :: seen)
      refine ⟨?_, ?_⟩
      · simp only [List.map_cons, List.nodup_cons]
        exact ⟨fun hx => (hnm _ hx) (List.mem_cons_self _ _), hnd⟩
      · intro v hv
        simp only [List.map_cons, List.mem_cons] at hv
        rcases hv with hv | hv
        · rw [hv]; exact h2.2
        · exact fun hs => (hnm _ hv) (List.mem_cons_of_mem _ hs)
    · rw [if_neg h2]
      exact ih seen

theorem mem_dedupFirst_ne (l : List Article) : ∀ (seen : List String)
    (a : Article), a ∈ dedupFirst seen l → getUrl a ≠ "" := by
  induction l with
  | nil => simp [dedupFirst]
  | cons b rest ih =>
    intro seen a ha
    simp only [dedupFirst] at ha
    by_cases h2 : getUrl b ≠ "" ∧ getUrl b ∉ seen
    · rw [if_pos h2] at ha
      rcases List.mem_cons.mp ha with h | h
      · rw [h]; exact h2.1
      · exact ih _ _ h
    · rw [if_neg h2] at ha
      exact ih _ _ ha

theorem dedupFirst_eq_nil_iff (l : List Article) : ∀ seen : List String,
    dedupFirst seen l = [] ↔ ∀ a ∈ l, getUrl a = "" ∨ getUrl a ∈ seen := by
  induction l with
  | nil => simp [dedupFirst]
  | cons a rest ih =>
    intro seen
    simp only [dedupFirst]
    by_cases h2 : getUrl a ≠ "" ∧ getUrl a ∉ seen
    · rw [if_pos h2]
      simp only [List.mem_cons]
      constructor
      · intro h; cases h
      · intro h
        rcases h a (Or.inl rfl) with h | h
        · exact absurd h h2.1
        · exact absurd h h2.2
    · rw [if_neg h2, ih]
      constructor
      · intro h b hb
        rcases List.mem_cons.mp hb with hb | hb
        · subst hb
          rw [not_and_or, not_not, not_not] at h2
          rcases h2 with h2 | h2
          · exact Or.inl h2
          · exact Or.inr h2
        · exact h b hb
      · intro h b hb
        exact h b (List.mem_cons_of_mem _ hb)

theorem fetchLoop_length_le (bs : List FetchOutcome) :
    (fetchLoop [] [] bs).length ≤ 20 := by
  rw [fetchLoop_spec bs [] [] (by simp) (by simp), List.length_take]
  exact min_le_left _ _

theorem fetchNews_fst (bs : List FetchOutcome) :
    (fetchNews bs).1 = fetchLoop [] [] bs := by
  have h := fetchLoop_length_le bs
  unfold fetchNews
  by_cases h20 : 20 ≤ (fetchLoop [] [] bs).length
  · simp only [if_pos h20]
    exact List.take_of_length_le h
  · rw [if_neg h20]
    by_cases h0 : 0 < (fetchLoop [] [] bs).length
    · simp [h0]
    · simp only [if_neg h0]
      have : fetchLoop [] [] bs = [] := by
        cases hq : fetchLoop [] [] bs with
        | nil => rfl
        | cons x xs => rw [hq] at h0; simp at h0
      rw [this]

theorem fetchNews_fst_spec (bs : List FetchOutcome) :
    (fetchNews bs).1 =
      (dedupFirst [] ((bs.map okArticles).flatten)).take 20 := by
  rw [fetchNews_fst, fetchLoop_spec bs [] [] (by simp) (by simp)]
  rfl

theorem fetchNews_snd (bs : List FetchOutcome) :
    (fetchNews bs).2 = true ↔ fetchLoop [] [] bs ≠ [] := by
  unfold fetchNews
  by_cases h20 : 20 ≤ (fetchLoop [] [] bs).length
  · simp only [if_pos h20]
    have : fetchLoop [] [] bs ≠ [] := by
      intro hq; rw [hq] at h20; simp at h20
    simp [this]
  · rw [if_neg h20]
    by_cases h0 : 0 < (fetchLoop [] [] bs).length
    · have : fetchLoop [] [] bs ≠ [] := by
        intro hq; rw [hq] at h0; simp at h0
      simp [h0, this]
    · have : fetchLoop [] [] bs = [] := by
        cases hq : fetchLoop [] [] bs with
        | nil => rfl
        | cons x xs => rw [hq] at h0; simp at h0
      simp [h0, this]

theorem okArticles_isFailure {b : FetchOutcome} (h : isFailure b = true) :
    okArticles b = [] := by
  cases b with
  | err => rfl
  | resp status articles =>
    simp only [isFailure, decide_eq_true_eq] at h
    simp [okArticles, h]

theorem dedupFirst_filter (l : List Article) : ∀ seen : List String,
    dedupFirst seen (l.filter fun a => getUrl a ≠ "") = dedupFirst seen l := by
  induction l with
  | nil => intro seen; rfl
  | cons a rest ih =>
    intro seen
    by_cases h1 : getUrl a = ""
    · rw [List.filter_cons_of_neg (by simp [h1])]
      rw [ih]
      simp only [dedupFirst]
      rw [if_neg (by simp [h1])]
    · rw [List.filter_cons_of_pos (by simp [h1])]
      simp only [dedupFirst]
      by_cases h2 : getUrl a ∉ seen
      · rw [if_pos ⟨h1, h2⟩, if_pos ⟨h1, h2⟩, ih]
      · rw [if_neg (by tauto), if_neg (by tauto), ih]

theorem flatten_map_filter {α : Type} (P : α → Bool) (L : List (List α)) :
    (L.map fun l => l.filter P).flatten = L.flatten.filter P := by
  induction L with
  | nil => rfl
  | cons l rest ih =>
    simp only [List.map_cons, List.flatten_cons, List.filter_append, ih]

theorem okArticles_dropEmptyUrl (b : FetchOutcome) :
    okArticles (dropEmptyUrl b) =
      (okArticles b).filter fun a => getUrl a ≠ "" := by
  cases b with
  | err => rfl
  | resp status articles =>
    by_cases h : status = some "ok"
    · simp only [dropEmptyUrl, okArticles, if_pos h]
    · simp only [dropEmptyUrl, okArticles, if_neg h, List.filter_nil]

theorem fetchLoop_dropEmptyUrl (bs : List FetchOutcome) :
    fetchLoop [] [] (bs.map dropEmptyUrl) = fetchLoop [] [] bs := by
  rw [fetchLoop_spec _ [] [] (by simp) (by simp),
    fetchLoop_spec bs [] [] (by simp) (by simp)]
  congr 1
  simp only [List.nil_append]
  have h1 : (bs.map dropEmptyUrl).map okArticles =
      (bs.map okArticles).map fun l => l.filter fun a => getUrl a ≠ "" := by
    induction bs with
    | nil => rfl
    | cons b rest ih => simp only [List.map_cons, ih, okArticles_dropEmptyUrl]
  rw [h1, flatten_map_filter, dedupFirst_filter]

theorem fetchNews_dropEmptyUrl (bs : List FetchOutcome) :
    fetchNews (bs.map dropEmptyUrl) = fetchNews bs := by
  unfold fetchNews
  rw [fetchLoop_dropEmptyUrl]

theorem countP_bucket_partition (f : String → ℚ) (arts : List Article) :
    (arts.countP fun a => classifySummary f a = Bucket.positive) +
      (arts.countP fun a => classifySummary f a = Bucket.negative) +
      (arts.countP fun a => classifySummary f a = Bucket.neutral) =
      arts.length := by
  induction arts with
  | nil => simp
  | cons a rest ih =>
    simp only [List.countP_cons, List.length_cons]
    cases hc : classifySummary f a <;> simp [hc] <;> omega

theorem abs_round1_sub_le (q : ℚ) : |round1 q - q| ≤ 1 / 20 := by
  have h := abs_sub_round (q * 10)
  rw [abs_sub_comm] at h
  have heq : round1 q - q = ((round (q * 10) : ℚ) - q * 10) / 10 := by
    rw [round1]; ring
  rw [heq, abs_div]
  rw [show |(10 : ℚ)| = 10 by norm_num]
  linarith

theorem pct_sum_abs_le (p n u t : ℕ) (hpnu : p + n + u = t) (ht : 0 < t) :
    |round1 ((p : ℚ) / (t : ℚ) * 100) + round1 ((n : ℚ) / (t : ℚ) * 100) +
      round1 ((u : ℚ) / (t : ℚ) * 100) - 100| ≤ 1 / 10 := by
  have htQ : (t : ℚ) ≠ 0 := Nat.cast_ne_zero.mpr ht.ne'
  set v1 : ℚ := (p : ℚ) / (t : ℚ) * 100 with hv1
  set v2 : ℚ := (n : ℚ) / (t : ℚ) * 100 with hv2
  set v3 : ℚ := (u : ℚ) / (t : ℚ) * 100 with hv3
  have hsum : v1 + v2 + v3 = 100 := by
    have hc : (p : ℚ) + (n : ℚ) + (u : ℚ) = (t : ℚ) := by exact_mod_cast hpnu
    rw [hv1, hv2, hv3]
    field_simp
    linarith
  have h1 := abs_sub_round (v1 * 10)
  have h2 := abs_sub_round (v2 * 10)
  have h3 := abs_sub_round (v3 * 10)
  set R : ℤ := round (v1 * 10) + round (v2 * 10) + round (v3 * 10) with hR
  have hRq : |(R : ℚ) - 1000| ≤ 3 / 2 := by
    have hexp : (R : ℚ) - 1000 =
        ((round (v1 * 10) : ℚ) - v1 * 10) + ((round (v2 * 10) : ℚ) - v2 * 10) +
          ((round (v3 * 10) : ℚ) - v3 * 10) := by
      push_cast [hR]
      have : v1 * 10 + v2 * 10 + v3 * 10 = 1000 := by
        have := hsum; nlinarith
      linarith
    rw [hexp]
    have e1 : |(round (v1 * 10) : ℚ) - v1 * 10| ≤ 1 / 2 := by
      rw [abs_sub_comm]; exact h1
    have e2 : |(round (v2 * 10) : ℚ) - v2 * 10| ≤ 1 / 2 := by
      rw [abs_sub_comm]; exact h2
    have e3 : |(round (v3 * 10) : ℚ) - v3 * 10| ≤ 1 / 2 := by
      rw [abs_sub_comm]; exact h3
    have htri := abs_add_three ((round (v1 * 10) : ℚ) - v1 * 10)
      ((round (v2 * 10) : ℚ) - v2 * 10) ((round (v3 * 10) : ℚ) - v3 * 10)
    linarith
  have hRint : |R - 1000| ≤ (1 : ℤ) := by
    have hcast : ((|R - 1000| : ℤ) : ℚ) ≤ 3 / 2 := by
      push_cast
      exact hRq
    have hlt : ((|R - 1000| : ℤ) : ℚ) < ((2 : ℤ) : ℚ) := by
      push_cast
      linarith [hRq]
    have : |R - 1000| < 2 := by exact_mod_cast hlt
    omega
  have hfinal : round1 v1 + round1 v2 + round1 v3 - 100 = ((R : ℚ) - 1000) / 10 := by
    simp only [round1, hR]
    push_cast
    ring
  rw [hfinal, abs_div, show |(10 : ℚ)| = 10 by norm_num]
  have : |(R : ℚ) - 1000| ≤ 1 := by
    have : ((|R - 1000| : ℤ) : ℚ) ≤ ((1 : ℤ) : ℚ) := by exact_mod_cast hRint
    push_cast at this
    linarith
  linarith

theorem ratio_lt_iff (p n : ℕ) : (n : ℚ) * (3 / 2) < (p : ℚ) ↔ 3 * n < 2 * p := by
  rw [show ((3 : ℕ) * n : ℕ) = (3 * n) from rfl]
  constructor
  · intro h
    have : ((3 * n : ℕ) : ℚ) < ((2 * p : ℕ) : ℚ) := by push_cast; linarith
    exact_mod_cast this
  · intro h
    have : ((3 * n : ℕ) : ℚ) < ((2 * p : ℕ) : ℚ) := by exact_mod_cast h
    push_cast at this
    linarith

theorem articleMentions_iff (kws : List String) (a : Article) :
    articleMentions kws a = true ↔ ∃ kw ∈ kws, MentionsProp kw a := by
  simp [articleMentions, kwIn, MentionsProp, List.any_eq_true]

theorem topicCount_eq_countP (kws : List String) (arts : List Article) :
    topicCount kws arts =
      arts.countP fun a => decide (∃ kw ∈ kws, MentionsProp kw a) := by
  rw [topicCount, ← List.countP_eq_length_filter]
  apply List.countP_congr
  intro a _
  rw [Bool.eq_iff_iff, articleMentions_iff, decide_eq_true_eq]
  simp

theorem priceCtx_isSome (sd : List ℚ) :
    (priceCtx sd).isSome = true ↔ 2 ≤ sd.length := by
  rw [priceCtx]
  cases hr : sd.reverse with
  | nil =>
    have h0 : sd.length = 0 := by simpa using congrArg List.length hr
    simp [h0]
  | cons c tail =>
    cases tail with
    | nil =>
      have h1 : sd.length = 1 := by simpa using congrArg List.length hr
      simp [h1]
    | cons pr rest =>
      have hlen : 2 ≤ sd.length := by
        have := congrArg List.length hr
        simp at this
        omega
      rw [if_pos (show 1 < sd.length by omega)]
      simp [hlen]

theorem priceCtx_append (l : List ℚ) (prev cur : ℚ) :
    priceCtx (l ++ [prev, cur]) = some (cur, (cur - prev) / prev * 100) := by
  rw [priceCtx, if_pos (by simp)]
  simp

theorem generateSummary_fields {f : String → ℚ} {sd : List ℚ}
    {arts : List Article} {s : Summary}
    (h : generateSummary f sd arts = some s) :
    s.positiveCount = (arts.countP fun a => classifySummary f a = Bucket.positive) ∧
    s.negativeCount = (arts.countP fun a => classifySummary f a = Bucket.negative) ∧
    s.neutralCount = (arts.countP fun a => classifySummary f a = Bucket.neutral) ∧
    s.totalArticles = arts.length ∧
    s.overallSentiment = overallOf s.positiveCount s.negativeCount ∧
    s.positivePct = round1 ((s.positiveCount : ℚ) / (s.totalArticles : ℚ) * 100) ∧
    s.negativePct = round1 ((s.negativeCount : ℚ) / (s.totalArticles : ℚ) * 100) ∧
    s.neutralPct = round1 ((s.neutralCount : ℚ) / (s.totalArticles : ℚ) * 100) ∧
    s.topicsMentioned =
      ((keywords.map fun tk => (tk.1, topicCount tk.2 arts)).filter
        fun tc => 0 < tc.2) ∧
    s.priceContext = priceCtx sd ∧
    s.conclusion = conclusionOf s.positiveCount s.negativeCount ∧
    arts ≠ [] := by
  by_cases he : arts.isEmpty = true
  · rw [generateSummary, if_pos he] at h
    cases h
  · rw [generateSummary, if_neg he] at h
    have hs := Option.some.inj h
    subst hs
    exact ⟨rfl, rfl, rfl, rfl, rfl, rfl, rfl, rfl, rfl, rfl, rfl,
      by simpa using he⟩

/- ### Claim theorems -/

/-- C1 (counterexample): the aggregated list does NOT always equal the
concatenation of the query ladder's batches filtered to the first
occurrence of each url and truncated at 20. A single ok batch holding one
article whose url is the empty string refutes it: the claim's dedup keeps
the article (its url `""` has not been seen), but `fetch_news` drops it
because an empty url is falsy. -/
theorem claim_C1_counterexample :
    (fetchNews [FetchOutcome.resp (some "ok") [exEmptyUrl]]).1 ≠
      specAggregateClaim
        ([FetchOutcome.resp (some "ok") [exEmptyUrl]].map okArticles) := by
  decide

/-- C1 (amended): the aggregated article list equals the concatenation of
the batches contributed by the query ladder, filtered to the first
occurrence of each NON-EMPTY url (an article whose url is missing or empty
is discarded; otherwise it is admitted only if its url has not been seen,
first-seen order preserved) and truncated at the cap of 20; hence the
result never holds more than 20 articles and no two held articles share a
url. -/
theorem claim_C1_agg_eq_dedup (batches : List FetchOutcome) :
    (fetchNews batches).1 =
      (dedupFirst [] ((batches.map okArticles).flatten)).take 20 ∧
    (fetchNews batches).1.length ≤ 20 ∧
    ((fetchNews batches).1.map getUrl).Nodup := by
  refine ⟨fetchNews_fst_spec batches, ?_, ?_⟩
  · rw [fetchNews_fst_spec batches, List.length_take]
    exact min_le_left _ _
  · rw [fetchNews_fst_spec batches, List.map_take]
    exact List.Nodup.sublist (List.take_sublist _ _)
      (dedupFirst_nodup ((batches.map okArticles).flatten) []).1

/-- C10: an article whose url field is missing or empty is never admitted
during fetching — every aggregated article has a non-empty url — and such
articles are inert: deleting them from every batch leaves the result of
`fetch_news` (articles and boolean alike) unchanged, so they can never mask
a later article through the seen-url set. -/
theorem claim_C10_nonempty_url (batches : List FetchOutcome) :
    (∀ a ∈ (fetchNews batches).1, getUrl a ≠ "") ∧
    fetchNews (batches.map dropEmptyUrl) = fetchNews batches := by
  refine ⟨?_, fetchNews_dropEmptyUrl batches⟩
  intro a ha
  rw [fetchNews_fst_spec batches] at ha
  exact mem_dedupFirst_ne _ _ _ (List.take_subset _ _ ha)

/-- C10 witness: instantiated at a single ok batch holding one article with
url `"u1"`. -/
theorem claim_C10_witness :
    getUrl exArticle ≠ "" ∧
      fetchNews ([FetchOutcome.resp (some "ok") [exArticle]].map dropEmptyUrl) =
        fetchNews [FetchOutcome.resp (some "ok") [exArticle]] :=
  ⟨(claim_C10_nonempty_url [FetchOutcome.resp (some "ok") [exArticle]]).1
      exArticle (by decide),
    (claim_C10_nonempty_url [FetchOutcome.resp (some "ok") [exArticle]]).2⟩

/-- C7 (counterexample): "the fetch as a whole succeeds whenever any query
yields at least one article" is false: a query may yield an article whose
url is missing; the article is not admitted and `fetch_news` returns
failure. -/
theorem claim_C7_counterexample :
    okArticles (FetchOutcome.resp (some "ok") [exNoUrl]) = [exNoUrl] ∧
    (fetchNews [FetchOutcome.resp (some "ok") [exNoUrl]]).2 = false := by
  decide

/-- C7 (amended): a failed query (exception, or a response whose status is
not `"ok"`) contributes no articles and does not abort the fetch —
deleting it from the query sequence leaves the loop's result unchanged —
and the fetch as a whole succeeds exactly when some query's ok response
holds at least one article with a non-empty url. -/
theorem claim_C7_failure_skipped :
    (∀ (acc : List Article) (seen : List String)
      (pre post : List FetchOutcome) (b : FetchOutcome), isFailure b = true →
      fetchLoop acc seen (pre ++ b :: post) = fetchLoop acc seen (pre ++ post)) ∧
    ∀ batches : List FetchOutcome,
      ((fetchNews batches).2 = true ↔
        ∃ b ∈ batches, ∃ a ∈ okArticles b, getUrl a ≠ "") := by
  constructor
  · intro acc seen pre post b hb
    induction pre generalizing acc seen with
    | nil =>
      simp only [List.nil_append]
      by_cases hfull : 20 ≤ acc.length
      · rw [fetchLoop_of_le hfull, fetchLoop_of_le hfull]
      · conv_lhs => rw [fetchLoop]
        rw [if_neg hfull, okArticles_isFailure hb]
        rfl
    | cons q pre ih =>
      simp only [List.cons_append]
      by_cases hfull : 20 ≤ acc.length
      · rw [fetchLoop_of_le hfull, fetchLoop_of_le hfull]
      · conv_lhs => rw [fetchLoop]
        conv_rhs => rw [fetchLoop]
        rw [if_neg hfull, if_neg hfull]
        exact ih _ _
  · intro batches
    rw [fetchNews_snd, fetchLoop_spec batches [] [] (by simp) (by simp),
      List.nil_append]
    rw [ne_eq, List.take_eq_nil_iff]
    simp only [OfNat.ofNat_ne_zero, false_or]
    rw [dedupFirst_eq_nil_iff]
    simp only [List.not_mem_nil, or_false]
    constructor
    · intro h
      push_neg at h
      obtain ⟨a, ha, hne⟩ := h
      rw [List.mem_flatten] at ha
      obtain ⟨l, hl, hal⟩ := ha
      rw [List.mem_map] at hl
      obtain ⟨b, hb, rfl⟩ := hl
      exact ⟨b, hb, a, hal, hne⟩
    · intro ⟨b, hb, a, hab, hne⟩ h
      exact hne (h a (List.mem_flatten.mpr
        ⟨okArticles b, List.mem_map.mpr ⟨b, hb, rfl⟩, hab⟩))

/-- C7 witness: a failing (exception) query in front of an ok query is
skipped without affecting the loop. -/
theorem claim_C7_witness :
    fetchLoop [] []
        ([] ++ FetchOutcome.err :: [FetchOutcome.resp (some "ok") [exArticle]]) =
      fetchLoop [] [] ([] ++ [FetchOutcome.resp (some "ok") [exArticle]]) :=
  claim_C7_failure_skipped.1 [] [] []
    [FetchOutcome.resp (some "ok") [exArticle]] FetchOutcome.err rfl

/-- C5: when zero articles are collected across all batches, `fetch_news`
returns `false`, and `generate_summary` returns the no-data message (and
only then): the percentage division and narrative generation are behind
the empty check, so they are never reached on an empty list. -/
theorem claim_C5_no_data (batches : List FetchOutcome) (f : String → ℚ)
    (stockData : List ℚ) :
    ((fetchNews batches).2 = false ↔ (fetchNews batches).1 = []) ∧
    ∀ arts : List Article, (generateSummary f stockData arts = none ↔ arts = []) := by
  constructor
  · rw [← not_iff_not]
    simp only [Bool.not_eq_false]
    rw [fetchNews_snd, fetchNews_fst]
  · intro arts
    rw [generateSummary]
    by_cases he : arts.isEmpty = true
    · simp [if_pos he, List.isEmpty_iff.mp he]
    · simp only [if_neg he]
      simp only [List.isEmpty_eq_true] at he
      simp [he]

/-- C3: for every non-empty aggregated article list, each article is
counted in exactly one sentiment bucket, so the three bucket counts sum to
the total, and the three reported percentages (count / total × 100, each
rounded to one decimal) sum to 100 within ±0.1. -/
theorem claim_C3_percentage_law (f : String → ℚ) (stockData : List ℚ)
    (arts : List Article) (s : Summary)
    (h : generateSummary f stockData arts = some s) :
    s.positiveCount + s.negativeCount + s.neutralCount = s.totalArticles ∧
    |s.positivePct + s.negativePct + s.neutralPct - 100| ≤ 1 / 10 := by
  obtain ⟨hp, hn, hu, ht, _, hpp, hnp, hup, _, _, _, hne⟩ :=
    generateSummary_fields h
  have hpart : s.positiveCount + s.negativeCount + s.neutralCount =
      s.totalArticles := by
    rw [hp, hn, hu, ht]
    exact countP_bucket_partition f arts
  refine ⟨hpart, ?_⟩
  have htpos : 0 < s.totalArticles := by
    rw [ht]
    exact List.length_pos.mpr hne
  rw [hpp, hnp, hup]
  exact pct_sum_abs_le _ _ _ _ hpart htpos

/-- C3 witness: a single neutral article gives counts 0+0+1 = 1 and
percentages 0 + 0 + 100 = 100. -/
theorem claim_C3_witness :
    ∃ s : Summary, generateSummary (fun _ => 0) [] [exArticle] = some s ∧
      (s.positiveCount + s.negativeCount + s.neutralCount = s.totalArticles ∧
        |s.positivePct + s.negativePct + s.neutralPct - 100| ≤ 1 / 10) :=
  ⟨_, rfl, claim_C3_percentage_law (fun _ => 0) [] [exArticle] _ rfl⟩

/-- C4: the closing statement is chosen by the strict ratio rule on the
bucket counts — strongly positive iff positive > negative × 1.5,
concerning iff not that and negative > positive × 1.5, mixed/balanced
otherwise — and 10/2 yields strongly positive, 2/10 concerning,
5/5 mixed. -/
theorem claim_C4_conclusion_rule :
    (∀ (f : String → ℚ) (sd : List ℚ) (arts : List Article) (s : Summary),
      generateSummary f sd arts = some s →
      s.conclusion = conclusionOf s.positiveCount s.negativeCount) ∧
    (∀ p n : ℕ,
      (conclusionOf p n = Conclusion.stronglyPositive ↔ 3 * n < 2 * p) ∧
      (conclusionOf p n = Conclusion.concerning ↔
        ¬3 * n < 2 * p ∧ 3 * p < 2 * n) ∧
      (conclusionOf p n = Conclusion.mixedBalanced ↔
        ¬3 * n < 2 * p ∧ ¬3 * p < 2 * n)) ∧
    conclusionOf 10 2 = Conclusion.stronglyPositive ∧
    conclusionOf 2 10 = Conclusion.concerning ∧
    conclusionOf 5 5 = Conclusion.mixedBalanced := by
  refine ⟨?_, ?_, ?_, ?_, ?_⟩
  · intro f sd arts s h
    exact (generateSummary_fields h).2.2.2.2.2.2.2.2.2.2.1
  · intro p n
    rw [conclusionOf]
    by_cases h1 : (n : ℚ) * (3 / 2) < (p : ℚ)
    · rw [if_pos h1]
      have h1' : 3 * n < 2 * p := (ratio_lt_iff p n).mp h1
      exact ⟨by simp [h1'], by simp [h1'], by simp [h1']⟩
    · rw [if_neg h1]
      have h1' : ¬3 * n < 2 * p := fun hc => h1 ((ratio_lt_iff p n).mpr hc)
      by_cases h2 : (p : ℚ) * (3 / 2) < (n : ℚ)
      · rw [if_pos h2]
        have h2' : 3 * p < 2 * n := (ratio_lt_iff n p).mp h2
        exact ⟨by simp [h1'], by simp [h1', h2'], by simp [h2']⟩
      · rw [if_neg h2]
        have h2' : ¬3 * p < 2 * n := fun hc => h2 ((ratio_lt_iff n p).mpr hc)
        exact ⟨by simp [h1'], by simp [h2'], by simp [h1', h2']⟩
  · norm_num [conclusionOf]
  · norm_num [conclusionOf]
  · norm_num [conclusionOf]

/-- C4 witness: the conclusion field of a concrete summary is the ratio
rule applied to its counts. -/
theorem claim_C4_witness :
    ∃ s : Summary, generateSummary (fun _ => 1) [] [exEmptyUrl] = some s ∧
      s.conclusion = conclusionOf s.positiveCount s.negativeCount :=
  ⟨_, rfl, claim_C4_conclusion_rule.1 (fun _ => 1) [] [exEmptyUrl] _ rfl⟩

/-- C9: the Overall Sentiment header is chosen by simple majority —
positive > negative gives predominantly positive, negative > positive
predominantly negative, tie mixed — independently of the 1.5× ratio rule:
at counts 4/3 the header is predominantly positive while the closing
statement is the mixed/balanced wording. -/
theorem claim_C9_overall_majority :
    (∀ (f : String → ℚ) (sd : List ℚ) (arts : List Article) (s : Summary),
      generateSummary f sd arts = some s →
      s.overallSentiment = overallOf s.positiveCount s.negativeCount) ∧
    (∀ p n : ℕ,
      (overallOf p n = Overall.predominantlyPositive ↔ n < p) ∧
      (overallOf p n = Overall.predominantlyNegative ↔ p < n) ∧
      (overallOf p n = Overall.mixed ↔ p = n)) ∧
    overallOf 4 3 = Overall.predominantlyPositive ∧
    conclusionOf 4 3 = Conclusion.mixedBalanced := by
  refine ⟨?_, ?_, by decide, by norm_num [conclusionOf]⟩
  · intro f sd arts s h
    exact (generateSummary_fields h).2.2.2.2.1
  · intro p n
    rw [overallOf]
    by_cases h1 : n < p
    · rw [if_pos h1]
      exact ⟨by simp [h1], by simp; omega, by simp; omega⟩
    · rw [if_neg h1]
      by_cases h2 : p < n
      · rw [if_pos h2]
        exact ⟨by simp; omega, by simp [h2], by simp; omega⟩
      · rw [if_neg h2]
        exact ⟨by simp; omega, by simp; omega, by simp; omega⟩

/-- C9 witness: the header field of a concrete summary is the majority
rule applied to its counts. -/
theorem claim_C9_witness :
    ∃ s : Summary, generateSummary (fun _ => 1) [] [exNoUrl] = some s ∧
      s.overallSentiment = overallOf s.positiveCount s.negativeCount :=
  ⟨_, rfl, claim_C9_overall_majority.1 (fun _ => 1) [] [exNoUrl] _ rfl⟩

/-- C6: a topic's tally counts the articles in which at least one of the
topic's keywords occurs as a case-insensitive substring of the title or
description — at most one increment per article per topic however many
keywords match — the tally never exceeds the article count, a topic of the
fixed table appears in the summary's topic list iff its tally is positive,
and the spec's example article increments both `earnings` and `growth`
exactly once. -/
theorem claim_C6_topic_tally :
    (∀ (kws : List String) (arts : List Article),
      topicCount kws arts =
        arts.countP fun a => decide (∃ kw ∈ kws, MentionsProp kw a)) ∧
    (∀ (kws : List String) (arts : List Article),
      topicCount kws arts ≤ arts.length) ∧
    (∀ (kws : List String) (a : Article) (arts : List Article),
      topicCount kws (a :: arts) =
        topicCount kws arts + if ∃ kw ∈ kws, MentionsProp kw a then 1 else 0) ∧
    (∀ (f : String → ℚ) (sd : List ℚ) (arts : List Article) (s : Summary)
      (tk : String × List String), generateSummary f sd arts = some s →
      tk ∈ keywords →
      ((tk.1, topicCount tk.2 arts) ∈ s.topicsMentioned ↔
        0 < topicCount tk.2 arts)) ∧
    topicCount ["earnings", "profit", "revenue", "quarter", "results"]
      [exArticle] = 1 ∧
    topicCount ["growth", "expansion", "increase", "rise", "surge"]
      [exArticle] = 1 := by
  refine ⟨topicCount_eq_countP, ?_, ?_, ?_, by decide, by decide⟩
  · intro kws arts
    rw [topicCount]
    exact List.length_filter_le _ _
  · intro kws a arts
    rw [topicCount_eq_countP, topicCount_eq_countP, List.countP_cons]
    by_cases hm : ∃ kw ∈ kws, MentionsProp kw a
    · simp [hm]
    · simp [hm]
  · intro f sd arts s tk h htk
    obtain ⟨_, _, _, _, _, _, _, _, htop, _, _, _⟩ := generateSummary_fields h
    rw [htop]
    constructor
    · intro hmem
      rw [List.mem_filter] at hmem
      simpa using hmem.2
    · intro hpos
      rw [List.mem_filter]
      exact ⟨List.mem_map.mpr ⟨tk, htk, rfl⟩, by simpa using hpos⟩

/-- C6 witness: the `earnings` topic of the fixed table appears in a
concrete summary's topic list with its tally. -/
theorem claim_C6_witness :
    ∃ s : Summary, generateSummary (fun _ => 1) [] [exArticle] = some s ∧
      (((("earnings" : String)),
        topicCount ["earnings", "profit", "revenue", "quarter", "results"]
          [exArticle]) ∈ s.topicsMentioned ↔
        0 < topicCount ["earnings", "profit", "revenue", "quarter", "results"]
          [exArticle]) :=
  ⟨_, rfl, claim_C6_topic_tally.2.2.2.1 (fun _ => 1) [] [exArticle] _
    ("earnings", ["earnings", "profit", "revenue", "quarter", "results"])
    rfl (by decide)⟩

/-- C8: the summary's price context is present iff the price series has at
least 2 points (fewer is not an error — the field is simply empty), and
when present the change is ((current − previous) / previous) × 100; closes
[100, 105] give exactly +5. -/
theorem claim_C8_price_context (f : String → ℚ) (sd : List ℚ)
    (arts : List Article) (s : Summary)
    (h : generateSummary f sd arts = some s) :
    ((s.priceContext).isSome = true ↔ 2 ≤ sd.length) ∧
    (∀ (l : List ℚ) (prev cur : ℚ), sd = l ++ [prev, cur] →
      s.priceContext = some (cur, (cur - prev) / prev * 100)) ∧
    (sd = [100, 105] → s.priceContext = some (105, 5)) := by
  obtain ⟨_, _, _, _, _, _, _, _, _, hpc, _, _⟩ := generateSummary_fields h
  rw [hpc]
  refine ⟨priceCtx_isSome sd, ?_, ?_⟩
  · intro l prev cur hsd
    rw [hsd]
    exact priceCtx_append l prev cur
  · intro hsd
    rw [hsd, show ([100, 105] : List ℚ) = [] ++ [100, 105] from rfl,
      priceCtx_append]
    norm_num

/-- C8 witness: a concrete summary over the close series [100, 105] carries
price context (105, +5). -/
theorem claim_C8_witness :
    ∃ s : Summary, generateSummary (fun _ => 0) [100, 105] [exNoUrl] = some s ∧
      s.priceContext = some (105, 5) :=
  ⟨_, rfl,
    (claim_C8_price_context (fun _ => 0) [100, 105] [exNoUrl] _ rfl).2.2 rfl⟩

/-- C2 (counterexample): not every classification site scores
`title + ". " + description`: the per-article display in `main` scores
`title + " " + description`, which differs, and a scorer that distinguishes
the two texts yields a different bucket there. -/
theorem claim_C2_counterexample :
    summaryText exEmptyUrl ≠ displayText exEmptyUrl ∧
    classifyDisplay exPolarity exEmptyUrl ≠
      bucketOf (exPolarity (summaryText exEmptyUrl)) := by
  constructor
  · decide
  · have e1 : classifyDisplay exPolarity exEmptyUrl = Bucket.neutral := by
      rw [classifyDisplay]
      simp only [exPolarity]
      rw [if_neg (by decide), bucketOf, if_neg (by norm_num),
        if_neg (by norm_num)]
    have e2 : bucketOf (exPolarity (summaryText exEmptyUrl)) =
        Bucket.positive := by
      simp only [exPolarity]
      rw [if_pos (by decide), bucketOf, if_pos (by norm_num)]
    rw [e1, e2]
    simp

/-- C2 (amended): `generate_summary` buckets each article by scoring
`title + ". " + description`, while the per-article display in `main`
buckets by scoring `title + " " + description` (a plain space); both use
the fixed thresholds: polarity > 0.1 Positive, < −0.1 Negative, otherwise
Neutral. -/
theorem claim_C2_thresholds (f : String → ℚ) (a : Article) (q : ℚ) :
    classifySummary f a = bucketOf (f (getTitle a ++ ". " ++ getDescription a)) ∧
    classifyDisplay f a = bucketOf (f (getTitle a ++ " " ++ getDescription a)) ∧
    (bucketOf q = Bucket.positive ↔ 1 / 10 < q) ∧
    (bucketOf q = Bucket.negative ↔ q < -(1 / 10)) ∧
    (bucketOf q = Bucket.neutral ↔ -(1 / 10) ≤ q ∧ q ≤ 1 / 10) := by
  refine ⟨rfl, rfl, ?_, ?_, ?_⟩
  · rw [bucketOf]
    split_ifs with h1 h2 <;> simp [h1] <;> linarith
  · rw [bucketOf]
    split_ifs with h1 h2
    · simp only [reduceCtorEq, false_iff]
      intro hc
      linarith
    · simp only [true_iff]
      linarith
    · simp only [reduceCtorEq, false_iff]
      intro hc
      linarith
  · rw [bucketOf]
    split_ifs with h1 h2
    · simp only [reduceCtorEq, false_iff]
      rintro ⟨c1, c2⟩
      linarith
    · simp only [reduceCtorEq, false_iff]
      rintro ⟨c1, c2⟩
      linarith
    · simp only [true_iff]
      exact ⟨by linarith, by linarith⟩

end StockNews
